import Mathlib

set_option maxRecDepth 8000

/-! Verification development for monitor5.py, a hybrid scraper that extracts
"Nota Técnica / Informe Técnico" notices from SEFAZ portal pages, merges the
results of a structural (link-based) pass and an aggressive (regex-based)
pass, ranks them by date, and tracks cross-run novelty in a seen-state store.

The HTTP fetch, the BeautifulSoup HTML parser, SMTP delivery and the JSON
file store are external collaborators; they are abstracted as inputs
(a fetch function returning page text or failure, a parse function turning
page text into the traversal data the code reads off the soup).  Everything
the Python code itself computes is embedded directly. -/

/-- Calendar date as produced by datetime.strptime("%d/%m/%Y"); Python
datetime values compare lexicographically on (year, month, day). -/
structure PyDate where
  year : Nat
  month : Nat
  day : Nat
deriving DecidableEq

/-- Lexicographic strict order on dates, mirroring Python datetime comparison
(restricted to the date fields, which are the only ones this program sets). -/
def dateLt (a b : PyDate) : Bool :=
  decide (a.year < b.year) ||
    (decide (a.year = b.year) &&
      (decide (a.month < b.month) ||
        (decide (a.month = b.month) && decide (a.day < b.day))))

/-- Gregorian leap-year rule used by datetime. -/
def isLeap (y : Nat) : Bool :=
  y % 4 == 0 && (y % 100 != 0 || y % 400 == 0)

/-- Days in a month, as validated by datetime's constructor. -/
def daysInMonth (y m : Nat) : Nat :=
  if m = 2 then (if isLeap y then 29 else 28)
  else if m = 4 ∨ m = 6 ∨ m = 9 ∨ m = 11 then 30
  else 31

/-- Calendar validity enforced by datetime(year, month, day): year within
MINYEAR..MAXYEAR, month 1..12, day 1..days-in-month. -/
def validDMY (d m y : Nat) : Bool :=
  decide (1 ≤ y) && decide (y ≤ 9999) && decide (1 ≤ m) && decide (m ≤ 12) &&
    decide (1 ≤ d) && decide (d ≤ daysInMonth y m)

/-- Numeric value of an ASCII digit character. -/
def digitVal (c : Char) : Nat := c.toNat - 48

/-- Case folding modelling re.IGNORECASE over the alphabet these patterns
use: ASCII letters plus the accented É and Í appearing in the keywords. -/
def lcase (c : Char) : Char :=
  if c == 'É' then 'é'
  else if c == 'Í' then 'í'
  else c.toLower

/-- Case-insensitive test that pattern `p` matches at the head of `s`. -/
def matchCIPref : List Char → List Char → Bool
  | [], _ => true
  | _ :: _, [] => false
  | p :: ps, c :: cs => lcase p == lcase c && matchCIPref ps cs

/-- Alternatives of PATTERN, the link-text keyword regex of monitor5.py. -/
def linkPats : List String :=
  ["nota técnica", "nota_tecnica", "informe técnico", "informe tecnico"]

/-- Unanchored case-insensitive search (re.search) for any of the given
alternatives inside a character list. -/
def searchCI (pats : List String) : List Char → Bool
  | [] => false
  | c :: cs => pats.any (fun p => matchCIPref p.data (c :: cs)) || searchCI pats cs

/-- PATTERN.search(text): does the link text contain one of the notice
keywords, case-insensitively. -/
def patternSearch (s : String) : Bool := searchCI linkPats s.data

/-- DATE_PATTERN shape test: the list starts with two digits, a slash, two
digits, a slash and four digits (further characters unconstrained). -/
def dateShape : List Char → Bool
  | d1 :: d2 :: a :: m1 :: m2 :: b :: y1 :: y2 :: y3 :: y4 :: _ =>
    d1.isDigit && d2.isDigit && a == '/' && m1.isDigit && m2.isDigit &&
      b == '/' && y1.isDigit && y2.isDigit && y3.isDigit && y4.isDigit
  | _ => false

/-- DATE_PATTERN.search: the leftmost DD/MM/YYYY-shaped substring, if any. -/
def dateSearchL : List Char → Option (List Char)
  | [] => none
  | c :: cs => if dateShape (c :: cs) then some ((c :: cs).take 10) else dateSearchL cs

/-- datetime.strptime(date_str, "%d/%m/%Y") on the ten-character tokens the
program feeds it, returning none exactly when strptime raises ValueError. -/
def strptimeDMY (s : String) : Option PyDate :=
  match s.data with
  | [d1, d2, a, m1, m2, b, y1, y2, y3, y4] =>
    if d1.isDigit && d2.isDigit && a == '/' && m1.isDigit && m2.isDigit &&
        b == '/' && y1.isDigit && y2.isDigit && y3.isDigit && y4.isDigit then
      let d := digitVal d1 * 10 + digitVal d2
      let m := digitVal m1 * 10 + digitVal m2
      let y := digitVal y1 * 1000 + digitVal y2 * 100 + digitVal y3 * 10 + digitVal y4
      if validDMY d m y then some (PyDate.mk y m d) else none
    else none
  | _ => none

/-- extract_date_from_text of monitor5.py: search for the first
DD/MM/YYYY-shaped token and parse it day/month/year, swallowing parse
failures into none. -/
def extract_date_from_text (s : String) : Option PyDate :=
  match dateSearchL s.data with
  | some tok => strptimeDMY (String.mk tok)
  | none => none

/-- Python str.strip on a character list. -/
def pyStripL (l : List Char) : List Char :=
  ((l.dropWhile Char.isWhitespace).reverse.dropWhile Char.isWhitespace).reverse

/-- Python str.strip. -/
def pyStrip (s : String) : String := String.mk (pyStripL s.data)

/-- Python slice s[:n] (by code points). -/
def pyTake (s : String) (n : Nat) : String := String.mk (s.data.take n)

/-- Helper for str.split: negated whitespace test. -/
def notWS (c : Char) : Bool := !c.isWhitespace

/-- Python str.split() (split on whitespace runs, dropping empties), with a
fuel argument for structural termination; the fuel passed is always the list
length plus one, which is enough since every step consumes a character. -/
def pySplitF : Nat → List Char → List (List Char)
  | 0, _ => []
  | _ + 1, [] => []
  | fuel + 1, c :: cs =>
    if c.isWhitespace then pySplitF fuel cs
    else ((c :: cs).takeWhile notWS) :: pySplitF fuel ((c :: cs).dropWhile notWS)

/-- Python " ".join on word lists. -/
def joinSpace : List (List Char) → List Char
  | [] => []
  | [w] => w
  | w :: ws => w ++ ' ' :: joinSpace ws

/-- The whitespace collapse in find_notes: " ".join(text.split()). -/
def normalizeWS (s : String) : String :=
  String.mk (joinSpace (pySplitF (s.data.length + 1) s.data))

/-- Characters admissible in a URL scheme, as in urllib.parse. -/
def isSchemeChar (c : Char) : Bool :=
  c.isAlpha || c.isDigit || c == '+' || c == '-' || c == '.'

/-- Scanner splitting a leading scheme at the first colon. -/
def schemeScan : List Char → List Char → Option (List Char × List Char)
  | _, [] => none
  | acc, c :: rest =>
    if c == ':' then
      if acc.isEmpty then none else some (acc.reverse, rest)
    else if isSchemeChar c then schemeScan (c :: acc) rest
    else none

/-- Split "scheme:rest" when the string has a URL scheme (first character
alphabetic, scheme characters up to a colon), as urllib.parse.urlparse does. -/
def splitScheme (s : String) : Option (String × String) :=
  match s.data with
  | [] => none
  | c :: _ =>
    if c.isAlpha then
      match schemeScan [] s.data with
      | some (sch, rest) => some (String.mk sch, String.mk rest)
      | none => none
    else none

/-- Boolean prefix test on character lists. -/
def listPref : List Char → List Char → Bool
  | [], _ => true
  | _ :: _, [] => false
  | p :: ps, c :: cs => p == c && listPref ps cs

/-- The path directory kept when resolving a relative reference: everything
up to and including the last slash, "/" when the path has no slash. -/
def dircut (path : List Char) : List Char :=
  let r := path.reverse.dropWhile (fun c => c ≠ '/')
  if r.isEmpty then ['/'] else r.reverse

/-- Split a base URL into its scheme-plus-netloc part and its path part. -/
def splitOnPath (base : String) : String × String :=
  match splitScheme base with
  | some (sch, rest) =>
    if listPref ['/', '/'] rest.data then
      let r2 := rest.data.drop 2
      (sch ++ "://" ++ String.mk (r2.takeWhile (fun c => c ≠ '/')),
        String.mk (r2.dropWhile (fun c => c ≠ '/')))
    else (sch ++ ":", rest)
  | none => ("", base)

/-- urllib.parse.urljoin restricted to the shapes this program produces:
empty inputs fall through to the other argument, an absolute reference (one
carrying a scheme) wins outright, protocol-relative and root-relative
references reuse the base scheme resp. authority, and any other reference is
appended to the base path's directory.  Dot-segment normalisation and
query/fragment handling, which no input of this program exercises, are not
modelled. -/
def urljoin (base url : String) : String :=
  if base = "" then url
  else if url = "" then base
  else
    match splitScheme url with
    | some _ => url
    | none =>
      if listPref ['/', '/'] url.data then
        match splitScheme base with
        | some (sch, _) => sch ++ ":" ++ url
        | none => url
      else
        let sp := splitOnPath base
        if listPref ['/'] url.data then sp.1 ++ url
        else sp.1 ++ String.mk (dircut sp.2.data) ++ url

/-- hashlib.sha256(s.encode()).hexdigest(), abstracted as an injective
fingerprint of the input text: the program only ever compares digests for
equality, so any injective map is observationally faithful (up to SHA-256
collisions, which are assumed absent). -/
def sha256_text (s : String) : String := s

/-- One result of soup.find_all("a", string=True), as find_notes reads it:
`text` is a.get_text(strip=True); `href` is a.get("href") (none when the
attribute is absent); `containerText` is get_text(" ", strip=True) of the
ancestor chosen by a.find_parent("tr") or a.find_parent(["li","div","p"]),
none when no such ancestor exists.  The DOM traversal itself lives in the
parsing collaborator. -/
structure Anchor where
  text : String
  href : Option String
  containerText : Option String
deriving DecidableEq

/-- Parsed page as find_notes consumes it: the matching anchors in document
order and soup.get_text(" ", strip=True) for the aggressive pass. -/
structure Doc where
  anchors : List Anchor
  pageText : String
deriving DecidableEq

/-- Transient notice candidate: the value stored in the dated_notes dict. -/
structure Candidate where
  title : String
  url : String
  date : Option PyDate
deriving DecidableEq

/-- Final output record of find_notes (title and url only). -/
structure Note where
  title : String
  url : String
deriving DecidableEq

/-- The hash key of the structural pass and of main's seen check:
sha256 of "title||url". -/
def structuralHashKey (t u : String) : String :=
  sha256_text (t ++ "||" ++ u)

/-- The hash key of the aggressive pass: sha256 of the first 150 characters
of the matched span, "||", and the page URL. -/
def aggrHashKey (t base : String) : String :=
  sha256_text (pyTake t 150 ++ "||" ++ base)

/-- Pass 1 of find_notes: for each anchor whose text matches PATTERN, emit
the (hash key, candidate) pair exactly as the loop body builds it. -/
def structLoop : List Anchor → String → List (String × Candidate)
  | [], _ => []
  | a :: rest, base =>
    if patternSearch a.text then
      let href := a.href.getD ""
      let full_url := urljoin base href
      let item_text := a.containerText.getD a.text
      (structuralHashKey a.text full_url,
        Candidate.mk a.text full_url (extract_date_from_text item_text)) ::
        structLoop rest base
    else structLoop rest base

/-- Ordered alternatives of REGEX_DATA_TITULO_AGRESSIVO's first group. -/
def aggrAlts : List String :=
  ["Nota Técnica", "Informe Técnico", "Informe_tecnico", "Nota_tecnica",
    "MDFE_Nota_Tecnica"]

/-- Alternation at the current position: first alternative (in pattern
order) matching case-insensitively, returning its length. -/
def kwAt (s : List Char) : Option Nat :=
  aggrAlts.findSome? (fun p => if matchCIPref p.data s then some p.data.length else none)

/-- Literal between the lazy gap and the date group of the aggressive regex. -/
def pubStr : String := "Publicada em "

/-- Test for "Publicada em DD/MM/YYYY" at the current position, returning the
captured date characters. -/
def pubAt (s : List Char) : Option (List Char) :=
  if matchCIPref pubStr.data s then
    let rest := s.drop pubStr.data.length
    if dateShape rest then some (rest.take 10) else none
  else none

/-- Lazy gap resolution: the least offset at which "Publicada em date"
matches, with the captured date (the semantics of the non-greedy .*? that
separates the keyword from the literal). -/
def findPub : List Char → Option (Nat × List Char)
  | [] => none
  | c :: cs =>
    match pubAt (c :: cs) with
    | some ds => some (0, ds)
    | none =>
      match findPub cs with
      | some (j, ds) => some (j + 1, ds)
      | none => none

/-- Attempt of the aggressive regex anchored at the current position: a
keyword alternative followed (lazily) by the published-on literal and date.
Returns the length of group 0 (the trailing lazy .*? matches empty) and the
characters of group 2. -/
def aggrMatchAt (s : List Char) : Option (Nat × List Char) :=
  match kwAt s with
  | some k =>
    match findPub (s.drop k) with
    | some (j, ds) => some (k + j + pubStr.data.length + 10, ds)
    | none => none
  | none => none

/-- finditer of the aggressive regex: leftmost matches, scanning resumes
after each match (non-overlapping).  Fuel is the list length plus one; every
step consumes at least one character, so the fuel never runs out. -/
def aggrScanF : Nat → List Char → List (List Char × List Char)
  | 0, _ => []
  | _ + 1, [] => []
  | fuel + 1, c :: cs =>
    match aggrMatchAt (c :: cs) with
    | some (len, ds) => ((c :: cs).take len, ds) :: aggrScanF fuel ((c :: cs).drop len)
    | none => aggrScanF fuel cs

/-- All matches of REGEX_DATA_TITULO_AGRESSIVO over a text, as
(group 0, group 2) string pairs. -/
def aggrMatches (s : String) : List (String × String) :=
  (aggrScanF (s.data.length + 1) s.data).map (fun q => (String.mk q.1, String.mk q.2))

/-- Pass 2 loop body of find_notes over the regex matches: strip the span,
keep it only when its length is strictly between 50 and 1000, and emit the
(hash key, candidate) pair with the page URL as url and the captured date. -/
def aggrPairsL : List (String × String) → String → List (String × Candidate)
  | [], _ => []
  | (span, ds) :: rest, base =>
    let titulo := pyStrip span
    if 50 < titulo.length ∧ titulo.length < 1000 then
      (aggrHashKey titulo base,
        Candidate.mk titulo base (extract_date_from_text ds)) :: aggrPairsL rest base
    else aggrPairsL rest base

/-- Structural candidates of a document, keyed. -/
def structPairs (doc : Doc) (base : String) : List (String × Candidate) :=
  structLoop doc.anchors base

/-- Aggressive candidates of a document, keyed: the regex runs over the
whitespace-collapsed page text. -/
def aggrPairs (doc : Doc) (base : String) : List (String × Candidate) :=
  aggrPairsL (aggrMatches (normalizeWS doc.pageText)) base

/-- Guarded insertion into the dated_notes dict: a key already present keeps
its value (both passes insert only when the key is absent). -/
def insertIfAbsent (m : List (String × Candidate)) (k : String) (v : Candidate) :
    List (String × Candidate) :=
  if (m.lookup k).isSome then m else m ++ [(k, v)]

/-- Folding a pass's pairs into the dict in emission order. -/
def insertAll (m : List (String × Candidate)) (ps : List (String × Candidate)) :
    List (String × Candidate) :=
  ps.foldl (fun acc p => insertIfAbsent acc p.1 p.2) m

/-- The dated_notes dict after both passes: structural first, aggressive
second, insertion-ordered like a Python dict. -/
def mergedPairs (doc : Doc) (base : String) : List (String × Candidate) :=
  insertAll (insertAll [] (structPairs doc base)) (aggrPairs doc base)

/-- Sort key of find_notes: the resolved date, or datetime(1900, 1, 1) when
the candidate has none. -/
def sortDateKey (c : Candidate) : PyDate := c.date.getD (PyDate.mk 1900 1 1)

/-- Stable descending insertion: x goes before the first element whose key
is strictly smaller, so elements inserted earlier stay first on ties. -/
def insertDesc (x : Candidate) : List Candidate → List Candidate
  | [] => [x]
  | y :: ys =>
    if dateLt (sortDateKey x) (sortDateKey y) then y :: insertDesc x ys
    else x :: y :: ys

/-- list.sort(key=..., reverse=True): stable sort, most recent date first. -/
def sortDesc : List Candidate → List Candidate
  | [] => []
  | x :: xs => insertDesc x (sortDesc xs)

/-- The sorted candidate list of find_notes (before the title/url
projection). -/
def rankedCands (doc : Doc) (base : String) : List Candidate :=
  sortDesc ((mergedPairs doc base).map Prod.snd)

/-- find_notes of monitor5.py over the parsed-page abstraction: hybrid
extraction, keyed merge, date-descending stable sort, title/url projection. -/
def find_notes (doc : Doc) (base : String) : List Note :=
  (rankedCands doc base).map (fun c => Note.mk c.title c.url)

/-- Value type of the seen_hashes.json store. -/
structure SeenRec where
  title : String
  url : String
  portal : String
  first_seen : String
deriving DecidableEq

/-- Observable outcome of one run of main: the per-portal new items handed
to the notifier and the seen store written by save_seen. -/
structure RunResult where
  newByPortal : List (String × List Note)
  savedSeen : List (String × SeenRec)
deriving DecidableEq

/-- Python dict assignment updated_seen[h] = rec: replace the value in place
when the key exists, append otherwise. -/
def dictSet : List (String × SeenRec) → String → SeenRec → List (String × SeenRec)
  | [], k, v => [(k, v)]
  | p :: m, k, v => if p.1 = k then (k, v) :: m else p :: dictSet m k v

/-- The key main computes per returned note for the seen check:
sha256_text of "title||url". -/
def noteKey (n : Note) : String := sha256_text (n.title ++ "||" ++ n.url)

/-- The notes a portal contributes: nothing on fetch failure or falsy (empty)
page text, otherwise find_notes over the parsed page with the portal URL as
base. -/
def portalNotes (fetch : String → Option String) (parse : String → Doc)
    (url : String) : List Note :=
  match fetch url with
  | none => []
  | some html => if html = "" then [] else find_notes (parse html) url

/-- Inner loop of main over one portal's notes: a note whose key is absent
from the run-start store is recorded into the updated store and collected as
new. -/
def scanNotes (seen : List (String × SeenRec)) (portal now : String) :
    List Note → List (String × SeenRec) → List (String × SeenRec) × List Note
  | [], upd => (upd, [])
  | n :: rest, upd =>
    if (seen.lookup (noteKey n)).isNone then
      let r := scanNotes seen portal now rest
        (dictSet upd (noteKey n) (SeenRec.mk n.title n.url portal now))
      (r.1, n :: r.2)
    else scanNotes seen portal now rest upd

/-- Outer loop of main over the portal registry, threading the updated store
and collecting per-portal new-item lists (a portal appears only when it has
new items). -/
def runLoop (seen : List (String × SeenRec)) (fetch : String → Option String)
    (parse : String → Doc) (now : String) :
    List (String × String) → List (String × SeenRec) → List (String × List Note) →
      RunResult
  | [], upd, acc => RunResult.mk acc upd
  | (portal, url) :: rest, upd, acc =>
    let r := scanNotes seen portal now (portalNotes fetch parse url) upd
    runLoop seen fetch parse now rest r.1
      (if r.2.isEmpty then acc else acc ++ [(portal, r.2)])

/-- main of monitor5.py, as a function of its collaborators: the portal
registry, the fetcher, the parser, the loaded seen store (empty when the
file is absent) and the timestamp.  updated_seen starts as a copy of the
loaded store; the result carries the notifier input and the saved store. -/
def runMain (portals : List (String × String)) (fetch : String → Option String)
    (parse : String → Doc) (seen : List (String × SeenRec)) (now : String) :
    RunResult :=
  runLoop seen fetch parse now portals seen []

theorem lookup_append {β : Type} (m1 m2 : List (String × β)) (k : String) :
    (m1 ++ m2).lookup k = ((m1.lookup k).or (m2.lookup k)) := by
  induction m1 with
  | nil => simp [List.lookup, Option.or]
  | cons p m ih =>
    obtain ⟨a, b⟩ := p
    by_cases h : k = a
    · subst h; simp [List.lookup, Option.or]
    · have hb : (k == a) = false := beq_false_of_ne h
      simp [List.lookup, hb, ih]

theorem lookup_eq_none_iff_keys {β : Type} (m : List (String × β)) (k : String) :
    m.lookup k = none ↔ k ∉ m.map Prod.fst := by
  induction m with
  | nil => simp [List.lookup]
  | cons p m ih =>
    obtain ⟨a, b⟩ := p
    by_cases h : k = a
    · subst h; simp [List.lookup]
    · have hb : (k == a) = false := beq_false_of_ne h
      simp [List.lookup, hb, h, ih]

theorem insertAll_cons (m : List (String × Candidate)) (p : String × Candidate)
    (ps : List (String × Candidate)) :
    insertAll m (p :: ps) = insertAll (insertIfAbsent m p.1 p.2) ps := rfl

theorem insertIfAbsent_lookup (m : List (String × Candidate)) (k : String)
    (v : Candidate) (k2 : String) :
    (insertIfAbsent m k v).lookup k2 =
      ((m.lookup k2).or (if k2 = k then some v else none)) := by
  unfold insertIfAbsent
  by_cases h : (m.lookup k).isSome
  · simp only [h, if_true]
    by_cases h2 : k2 = k
    · subst h2
      cases hm : m.lookup k2 with
      | none => rw [hm] at h; simp at h
      | some w => simp [Option.or]
    · simp only [h2, if_false]
      cases m.lookup k2 <;> rfl
  · simp only [h, if_false, Bool.false_eq_true, lookup_append]
    by_cases h2 : k2 = k
    · subst h2; simp [List.lookup]
    · have hb : (k2 == k) = false := beq_false_of_ne h2
      simp [List.lookup, hb, h2]

theorem insertAll_lookup (ps : List (String × Candidate))
    (m : List (String × Candidate)) (k : String) :
    (insertAll m ps).lookup k = ((m.lookup k).or (ps.lookup k)) := by
  induction ps generalizing m with
  | nil =>
    show m.lookup k = (m.lookup k).or (List.lookup k [])
    cases m.lookup k <;> rfl
  | cons p ps ih =>
    obtain ⟨a, b⟩ := p
    rw [insertAll_cons, ih, insertIfAbsent_lookup]
    by_cases h : k = a
    · subst h
      cases hm : m.lookup k <;> simp [List.lookup, Option.or]
    · have hb : (k == a) = false := beq_false_of_ne h
      cases hm : m.lookup k <;> simp [List.lookup, hb, h, Option.or]

theorem insertIfAbsent_keys_nodup (m : List (String × Candidate)) (k : String)
    (v : Candidate) (h : (m.map Prod.fst).Nodup) :
    ((insertIfAbsent m k v).map Prod.fst).Nodup := by
  unfold insertIfAbsent
  by_cases hs : (m.lookup k).isSome
  · simpa [hs] using h
  · have hn : m.lookup k = none := by
      cases hm : m.lookup k
      · rfl
      · rw [hm] at hs; simp at hs
    have hk : k ∉ m.map Prod.fst := (lookup_eq_none_iff_keys m k).mp hn
    simp only [hs, if_false, Bool.false_eq_true, List.map_append]
    rw [List.nodup_append]
    refine ⟨h, by simp, ?_⟩
    intro x hx
    simp only [List.map_cons, List.map_nil, List.mem_singleton]
    intro hxk
    exact hk (hxk ▸ hx)

theorem insertAll_keys_nodup (ps : List (String × Candidate))
    (m : List (String × Candidate)) (h : (m.map Prod.fst).Nodup) :
    ((insertAll m ps).map Prod.fst).Nodup := by
  induction ps generalizing m with
  | nil => exact h
  | cons p ps ih =>
    rw [insertAll_cons]
    exact ih _ (insertIfAbsent_keys_nodup _ _ _ h)

/-- C1: the merge map is filled structural-first with insert-only-if-absent
in both passes, so keys are unique in the merged dict ("exactly one
candidate survives per identity key"), and a lookup in the merged dict is
the first structural candidate with that key when one exists, falling back
to the first aggressive candidate otherwise — structural precedence on every
key collision, first-seen-wins within each pass. -/
theorem C1_merge_precedence (doc : Doc) (base : String) :
    ((mergedPairs doc base).map Prod.fst).Nodup ∧
      ∀ k : String, (mergedPairs doc base).lookup k =
        (((structPairs doc base).lookup k).or ((aggrPairs doc base).lookup k)) := by
  constructor
  · exact insertAll_keys_nodup _ _ (insertAll_keys_nodup _ _ (by simp))
  · intro k
    unfold mergedPairs
    rw [insertAll_lookup, insertAll_lookup]
    simp [List.lookup, Option.or]

/-- C4: the structural pass is exactly a filter-and-map over the document's
anchors: one candidate per anchor whose text matches the keyword pattern
(with url the href resolved against the base, no candidate otherwise); an
empty href resolves to the base URL itself, and the documented example
resolves as expected. -/
theorem C4_structural_extractor (anchors : List Anchor) (base : String) :
    structLoop anchors base =
      (anchors.filter (fun a => patternSearch a.text)).map (fun a =>
        (structuralHashKey a.text (urljoin base (a.href.getD "")),
          Candidate.mk a.text (urljoin base (a.href.getD ""))
            (extract_date_from_text (a.containerText.getD a.text)))) ∧
      (∀ b : String, urljoin b "" = b) ∧
      urljoin "https://x/y/" "z.pdf" = "https://x/y/z.pdf" := by
  refine ⟨?_, ?_, by decide⟩
  · induction anchors with
    | nil => rfl
    | cons a rest ih =>
      by_cases h : patternSearch a.text
      · simp [structLoop, h, List.filter_cons, ih]
      · simp [structLoop, h, List.filter_cons, ih]
  · intro b
    by_cases hb : b = ""
    · subst hb; rfl
    · simp [urljoin, hb]

theorem mem_insertDesc (z x : Candidate) (l : List Candidate) :
    z ∈ insertDesc x l ↔ z = x ∨ z ∈ l := by
  induction l with
  | nil => simp [insertDesc]
  | cons y ys ih =>
    by_cases h : dateLt (sortDateKey x) (sortDateKey y)
    · simp only [insertDesc, h, if_true, List.mem_cons, ih]
      tauto
    · simp only [insertDesc, h, if_false, Bool.false_eq_true, List.mem_cons]

theorem mem_sortDesc (z : Candidate) (l : List Candidate) :
    z ∈ sortDesc l ↔ z ∈ l := by
  induction l with
  | nil => simp [sortDesc]
  | cons x xs ih => simp [sortDesc, mem_insertDesc, ih]

theorem mem_insertIfAbsent (p : String × Candidate) (m : List (String × Candidate))
    (k : String) (v : Candidate) :
    p ∈ insertIfAbsent m k v → p ∈ m ∨ p = (k, v) := by
  unfold insertIfAbsent
  by_cases h : (m.lookup k).isSome
  · simp [h]
    tauto
  · simp [h]

theorem mem_insertAll (p : String × Candidate) (ps m : List (String × Candidate)) :
    p ∈ insertAll m ps → p ∈ m ∨ p ∈ ps := by
  induction ps generalizing m with
  | nil => exact fun h => Or.inl h
  | cons q qs ih =>
    intro h
    rw [insertAll_cons] at h
    rcases ih _ h with h2 | h2
    · rcases mem_insertIfAbsent _ _ _ _ h2 with h3 | h3
      · exact Or.inl h3
      · right; rw [h3]; simp
    · right; right; exact h2

/-- C5: the aggressive pass emits one candidate per regex match whose
(stripped) matched span has length strictly between 50 and 1000, and none
otherwise; consequently every note find_notes returns either comes from the
structural pass or has a title of length strictly between 50 and 1000. -/
theorem C5_aggressive_filter :
    (∀ (ms : List (String × String)) (base : String),
      aggrPairsL ms base =
        (ms.filter (fun m => decide (50 < (pyStrip m.1).length) &&
            decide ((pyStrip m.1).length < 1000))).map (fun m =>
          (aggrHashKey (pyStrip m.1) base,
            Candidate.mk (pyStrip m.1) base (extract_date_from_text m.2)))) ∧
    (∀ (doc : Doc) (base : String) (n : Note), n ∈ find_notes doc base →
      n ∈ (structPairs doc base).map (fun q => Note.mk q.2.title q.2.url) ∨
        (50 < n.title.length ∧ n.title.length < 1000)) := by
  have part1 : ∀ (ms : List (String × String)) (base : String),
      aggrPairsL ms base =
        (ms.filter (fun m => decide (50 < (pyStrip m.1).length) &&
            decide ((pyStrip m.1).length < 1000))).map (fun m =>
          (aggrHashKey (pyStrip m.1) base,
            Candidate.mk (pyStrip m.1) base (extract_date_from_text m.2))) := by
    intro ms base
    induction ms with
    | nil => rfl
    | cons q qs ih =>
      obtain ⟨span, ds⟩ := q
      by_cases h : 50 < (pyStrip span).length ∧ (pyStrip span).length < 1000
      · have hb : (decide (50 < (pyStrip span).length) &&
            decide ((pyStrip span).length < 1000)) = true := by
          simp [h.1, h.2]
        simp [aggrPairsL, h, List.filter_cons, hb, ih]
      · have hb : (decide (50 < (pyStrip span).length) &&
            decide ((pyStrip span).length < 1000)) = false := by
          rcases Decidable.not_and_iff_or_not.mp h with h1 | h1 <;> simp [h1]
        simp [aggrPairsL, h, List.filter_cons, hb, ih]
  refine ⟨part1, ?_⟩
  intro doc base n hn
  unfold find_notes at hn
  rcases List.mem_map.mp hn with ⟨c, hc, rfl⟩
  unfold rankedCands at hc
  rw [mem_sortDesc] at hc
  rcases List.mem_map.mp hc with ⟨p, hp, rfl⟩
  unfold mergedPairs at hp
  rcases mem_insertAll _ _ _ hp with h2 | h2
  · rcases mem_insertAll _ _ _ h2 with h3 | h3
    · simp at h3
    · exact Or.inl (List.mem_map.mpr ⟨p, h3, rfl⟩)
  · right
    unfold aggrPairs at h2
    rw [part1] at h2
    rcases List.mem_map.mp h2 with ⟨m, hm, hpm⟩
    have hf := List.of_mem_filter hm
    have h50 : 50 < (pyStrip m.1).length := by
      have := (Bool.and_eq_true _ _).mp hf
      exact of_decide_eq_true this.1
    have h1000 : (pyStrip m.1).length < 1000 := by
      have := (Bool.and_eq_true _ _).mp hf
      exact of_decide_eq_true this.2
    have ht : p.2.title = pyStrip m.1 := by rw [← hpm]
    rw [ht]
    exact ⟨h50, h1000⟩

/-- Concrete page for the C5 witness: one structural anchor, no aggressive
matches. -/
def D5 : Doc := Doc.mk [Anchor.mk "Nota Técnica Teste" (some "a.pdf") none] ""

/-- Base URL for the C5 witness. -/
def B5 : String := "https://w.test/"

/-- The note the C5 witness page yields. -/
def N5 : Note := Note.mk "Nota Técnica Teste" "https://w.test/a.pdf"

theorem C5_witness :
    N5 ∈ (structPairs D5 B5).map (fun q => Note.mk q.2.title q.2.url) ∨
      (50 < N5.title.length ∧ N5.title.length < 1000) :=
  C5_aggressive_filter.2 D5 B5 N5 (by decide)

theorem dateLt_asymm (a b : PyDate) (h : dateLt a b = true) : dateLt b a = false := by
  simp only [dateLt, Bool.or_eq_true, Bool.and_eq_true, decide_eq_true_eq] at h
  simp only [dateLt, Bool.or_eq_false_iff, Bool.and_eq_false_iff,
    decide_eq_false_iff_not, not_lt]
  omega

theorem dateLt_ne (a b : PyDate) (h : dateLt a b = true) : a ≠ b := by
  simp only [dateLt, Bool.or_eq_true, Bool.and_eq_true, decide_eq_true_eq] at h
  intro he
  subst he
  omega

theorem dateLt_false_trans (a b c : PyDate) (h1 : dateLt a b = false)
    (h2 : dateLt b c = false) : dateLt a c = false := by
  simp only [dateLt, Bool.or_eq_false_iff, Bool.and_eq_false_iff,
    decide_eq_false_iff_not, not_lt] at h1 h2 ⊢
  omega

/-- Relation "sorts not after": a's key is not strictly below b's. -/
def keyGe (a b : Candidate) : Prop := dateLt (sortDateKey a) (sortDateKey b) = false

theorem insertDesc_pairwise (x : Candidate) (l : List Candidate)
    (h : l.Pairwise keyGe) : (insertDesc x l).Pairwise keyGe := by
  induction l with
  | nil => simp [insertDesc, List.pairwise_cons]
  | cons y ys ih =>
    rcases List.pairwise_cons.mp h with ⟨hy, hys⟩
    by_cases hlt : dateLt (sortDateKey x) (sortDateKey y)
    · simp only [insertDesc, hlt, if_true]
      rw [List.pairwise_cons]
      refine ⟨?_, ih hys⟩
      intro z hz
      rcases (mem_insertDesc z x ys).mp hz with rfl | hz2
      · exact dateLt_asymm _ _ hlt
      · exact hy z hz2
    · simp only [insertDesc, hlt, if_false, Bool.false_eq_true]
      rw [List.pairwise_cons]
      have hxy : keyGe x y := by
        simp only [keyGe]
        exact Bool.eq_false_iff.mpr hlt
      refine ⟨?_, h⟩
      intro z hz
      rcases List.mem_cons.mp hz with rfl | hz2
      · exact hxy
      · exact dateLt_false_trans _ _ _ hxy (hy z hz2)

theorem sortDesc_pairwise (l : List Candidate) : (sortDesc l).Pairwise keyGe := by
  induction l with
  | nil => simp [sortDesc]
  | cons x xs ih => exact insertDesc_pairwise x (sortDesc xs) ih

theorem insertDesc_filter_key (d : PyDate) (x : Candidate) (l : List Candidate) :
    (insertDesc x l).filter (fun c => decide (sortDateKey c = d)) =
      (x :: l).filter (fun c => decide (sortDateKey c = d)) := by
  induction l with
  | nil => rfl
  | cons y ys ih =>
    by_cases hlt : dateLt (sortDateKey x) (sortDateKey y)
    · simp only [insertDesc, hlt, if_true]
      by_cases hx : sortDateKey x = d
      · have hy : ¬ sortDateKey y = d := by
          intro hyd
          exact dateLt_ne _ _ hlt (by rw [hx, hyd])
        simp [List.filter_cons, hx, hy, ih]
      · by_cases hy : sortDateKey y = d <;> simp [List.filter_cons, hx, hy, ih]
    · simp [insertDesc, hlt]

theorem sortDesc_filter_key (d : PyDate) (l : List Candidate) :
    (sortDesc l).filter (fun c => decide (sortDateKey c = d)) =
      l.filter (fun c => decide (sortDateKey c = d)) := by
  induction l with
  | nil => rfl
  | cons x xs ih =>
    show (insertDesc x (sortDesc xs)).filter _ = _
    rw [insertDesc_filter_key]
    by_cases hx : sortDateKey x = d <;> simp [List.filter_cons, hx, ih]

/-- Page for the C2 counterexample: an undated notice link followed by a
notice link whose row date is 31/12/1899, i.e. earlier than the 1900-01-01
sentinel the sort substitutes for missing dates. -/
def D2 : Doc := Doc.mk
  [Anchor.mk "Nota Técnica A" none none,
    Anchor.mk "Nota Técnica B" none (some "Publicada em 31/12/1899")] ""

/-- Base URL for the C2 counterexample. -/
def B2 : String := "https://rank.test/"

/-- C2 is false as stated: the undated candidate does not sort after all
dated candidates.  On this concrete page the candidate with no resolved date
is ranked first and a candidate dated 31/12/1899 is ranked after it, because
missing dates are replaced by the sentinel datetime(1900, 1, 1), which is
not the earliest possible date. -/
theorem C2_counterexample :
    (rankedCands D2 B2).map Candidate.date =
      [none, some (PyDate.mk 1899 12 31)] := by decide

/-- C2 (amended): the ranking is the stable descending sort by the key
"resolved date, or the sentinel 1900-01-01 when absent": the ranked list is
monotonically non-increasing in that key, each key class keeps the merge-map
insertion order (structural before aggressive, document order within each
pass), and find_notes is its title/url projection.  Undated candidates
therefore sort after candidates dated 1900-01-01 or later but before
candidates dated earlier than 1900-01-01, not after all dated candidates. -/
theorem C2_ranking_amended (doc : Doc) (base : String) :
    (rankedCands doc base).Pairwise keyGe ∧
      (∀ d : PyDate,
        (rankedCands doc base).filter (fun c => decide (sortDateKey c = d)) =
          ((mergedPairs doc base).map Prod.snd).filter
            (fun c => decide (sortDateKey c = d))) ∧
      find_notes doc base =
        (rankedCands doc base).map (fun c => Note.mk c.title c.url) :=
  ⟨sortDesc_pairwise _, fun d => sortDesc_filter_key d _, rfl⟩

theorem dateSearchL_none_iff (l : List Char) :
    dateSearchL l = none ↔ ∀ i : Nat, dateShape (l.drop i) = false := by
  induction l with
  | nil =>
    constructor
    · intro _ i
      rw [List.drop_nil]
      rfl
    · intro _
      rfl
  | cons c cs ih =>
    cases h : dateShape (c :: cs) with
    | true =>
      constructor
      · intro hs
        simp [dateSearchL, h] at hs
      · intro hall
        have h0 := hall 0
        rw [List.drop_zero, h] at h0
        exact absurd h0 (by simp)
    | false =>
      have hun : dateSearchL (c :: cs) = dateSearchL cs := by
        simp [dateSearchL, h]
      rw [hun, ih]
      constructor
      · intro hall i
        cases i with
        | zero =>
          rw [List.drop_zero]
          exact h
        | succ n =>
          rw [List.drop_succ_cons]
          exact hall n
      · intro hall i
        have hi := hall (i + 1)
        rw [List.drop_succ_cons] at hi
        exact hi

theorem dateSearchL_some_iff (l tok : List Char) :
    dateSearchL l = some tok ↔
      ∃ i : Nat, dateShape (l.drop i) = true ∧
        (∀ j : Nat, j < i → dateShape (l.drop j) = false) ∧
        tok = (l.drop i).take 10 := by
  induction l with
  | nil =>
    constructor
    · intro hs
      exact absurd hs (by simp [dateSearchL])
    · rintro ⟨i, hi, -, -⟩
      rw [List.drop_nil] at hi
      exact absurd hi (by decide)
  | cons c cs ih =>
    cases h : dateShape (c :: cs) with
    | true =>
      have hsome : dateSearchL (c :: cs) = some ((c :: cs).take 10) := by
        simp [dateSearchL, h]
      rw [hsome]
      constructor
      · intro hs
        refine ⟨0, ?_, ?_, ?_⟩
        · rw [List.drop_zero]
          exact h
        · intro j hj
          exact absurd hj (Nat.not_lt_zero j)
        · rw [List.drop_zero]
          exact (Option.some_inj.mp hs).symm
      · rintro ⟨i, hi, hfirst, htok⟩
        cases i with
        | zero =>
          rw [List.drop_zero] at htok
          rw [htok]
        | succ n =>
          have h0 := hfirst 0 (Nat.succ_pos n)
          rw [List.drop_zero, h] at h0
          exact absurd h0 (by simp)
    | false =>
      have hun : dateSearchL (c :: cs) = dateSearchL cs := by
        simp [dateSearchL, h]
      rw [hun, ih]
      constructor
      · rintro ⟨i, hi, hfirst, htok⟩
        refine ⟨i + 1, ?_, ?_, ?_⟩
        · rw [List.drop_succ_cons]
          exact hi
        · intro j hj
          cases j with
          | zero =>
            rw [List.drop_zero]
            exact h
          | succ n =>
            rw [List.drop_succ_cons]
            exact hfirst n (by omega)
        · rw [List.drop_succ_cons]
          exact htok
      · rintro ⟨i, hi, hfirst, htok⟩
        cases i with
        | zero =>
          rw [List.drop_zero, h] at hi
          exact absurd hi (by simp)
        | succ n =>
          refine ⟨n, ?_, ?_, ?_⟩
          · rw [List.drop_succ_cons] at hi
            exact hi
          · intro j hj
            have hj2 := hfirst (j + 1) (by omega)
            rw [List.drop_succ_cons] at hj2
            exact hj2
          · rw [List.drop_succ_cons] at htok
            exact htok

/-- C6: extract_date_from_text locates the first DD/MM/YYYY-shaped substring
of the text and parses it under the day/month/year convention with calendar
validation: it returns a date iff the first shaped substring exists and
strptime accepts it, and no value iff no shaped substring exists or the
first one fails validation; concretely 29/09/2024 resolves to year 2024,
month 9, day 29, while 31/04/2024 is rejected (April has 30 days).  The
embedding is a pure function, matching the side-effect-freedom claim. -/
theorem C6_date_resolver :
    (∀ (s : String) (d : PyDate),
      extract_date_from_text s = some d ↔
        ∃ i : Nat, dateShape (s.data.drop i) = true ∧
          (∀ j : Nat, j < i → dateShape (s.data.drop j) = false) ∧
          strptimeDMY (String.mk ((s.data.drop i).take 10)) = some d) ∧
    (∀ s : String,
      extract_date_from_text s = none ↔
        ((∀ i : Nat, dateShape (s.data.drop i) = false) ∨
          ∃ i : Nat, dateShape (s.data.drop i) = true ∧
            (∀ j : Nat, j < i → dateShape (s.data.drop j) = false) ∧
            strptimeDMY (String.mk ((s.data.drop i).take 10)) = none)) ∧
    extract_date_from_text "29/09/2024" = some (PyDate.mk 2024 9 29) ∧
    extract_date_from_text "31/04/2024" = none := by
  have firstUnique : ∀ (l : List Char) (i i2 : Nat),
      dateShape (l.drop i) = true → (∀ j : Nat, j < i → dateShape (l.drop j) = false) →
      dateShape (l.drop i2) = true → (∀ j : Nat, j < i2 → dateShape (l.drop j) = false) →
      i = i2 := by
    intro l i i2 hi hfi hi2 hfi2
    rcases Nat.lt_trichotomy i i2 with hlt | heq | hgt
    · rw [hfi2 i hlt] at hi
      exact absurd hi (by simp)
    · exact heq
    · rw [hfi i2 hgt] at hi2
      exact absurd hi2 (by simp)
  refine ⟨?_, ?_, by decide, by decide⟩
  · intro s d
    unfold extract_date_from_text
    cases hs : dateSearchL s.data with
    | none =>
      simp only []
      constructor
      · intro hfalse
        exact absurd hfalse (by simp)
      · rintro ⟨i, hi, -, -⟩
        have hall := (dateSearchL_none_iff s.data).mp hs
        rw [hall i] at hi
        exact absurd hi (by simp)
    | some tok =>
      rcases (dateSearchL_some_iff s.data tok).mp hs with ⟨i0, hi0, hf0, htok0⟩
      constructor
      · intro hp
        refine ⟨i0, hi0, hf0, ?_⟩
        rw [← htok0]
        exact hp
      · rintro ⟨i, hi, hf, hp⟩
        have hii : i = i0 := firstUnique s.data i i0 hi hf hi0 hf0
        subst hii
        rw [htok0]
        exact hp
  · intro s
    unfold extract_date_from_text
    cases hs : dateSearchL s.data with
    | none =>
      simp only []
      constructor
      · intro _
        exact Or.inl ((dateSearchL_none_iff s.data).mp hs)
      · intro _
        trivial
    | some tok =>
      rcases (dateSearchL_some_iff s.data tok).mp hs with ⟨i0, hi0, hf0, htok0⟩
      constructor
      · intro hp
        refine Or.inr ⟨i0, hi0, hf0, ?_⟩
        rw [← htok0]
        exact hp
      · rintro (hall | ⟨i, hi, hf, hp⟩)
        · rw [hall i0] at hi0
          exact absurd hi0 (by simp)
        · have hii : i = i0 := firstUnique s.data i i0 hi hf hi0 hf0
          subst hii
          rw [htok0]
          exact hp

theorem C6_witness :
    extract_date_from_text "02/01/1999" = some (PyDate.mk 1999 1 2) :=
  (C6_date_resolver.1 "02/01/1999" (PyDate.mk 1999 1 2)).mpr
    ⟨0, by decide, fun j hj => absurd hj (Nat.not_lt_zero j), by decide⟩

theorem dictSet_lookup (m : List (String × SeenRec)) (k : String) (v : SeenRec)
    (k2 : String) :
    (dictSet m k v).lookup k2 = if k2 = k then some v else m.lookup k2 := by
  induction m with
  | nil =>
    by_cases h : k2 = k
    · subst h
      simp [dictSet, List.lookup]
    · have hb : (k2 == k) = false := beq_false_of_ne h
      simp [dictSet, List.lookup, hb, h]
  | cons p m ih =>
    obtain ⟨a, b⟩ := p
    show (if a = k then (k, v) :: m else (a, b) :: dictSet m k v).lookup k2 =
      if k2 = k then some v else ((a, b) :: m).lookup k2
    by_cases h1 : a = k
    · rw [if_pos h1]
      by_cases h2 : k2 = k
      · subst h2
        simp [List.lookup]
      · have hb : (k2 == k) = false := beq_false_of_ne h2
        have hb2 : (k2 == a) = false := beq_false_of_ne (fun he => h2 (h1 ▸ he))
        simp [List.lookup, hb, hb2, h2]
    · rw [if_neg h1]
      by_cases h2 : k2 = a
      · have hk : ¬ k2 = k := by
          intro he
          rw [← h2] at h1
          exact h1 he
        have hb : (k2 == a) = true := by simp [h2]
        simp [List.lookup, hb, hk]
      · have hb : (k2 == a) = false := beq_false_of_ne h2
        simp [List.lookup, hb, ih]

theorem scanNotes_items (seen : List (String × SeenRec)) (portal now : String)
    (notes : List Note) (upd : List (String × SeenRec)) :
    (scanNotes seen portal now notes upd).2 =
      notes.filter (fun n => (seen.lookup (noteKey n)).isNone) := by
  induction notes generalizing upd with
  | nil => rfl
  | cons n rest ih =>
    by_cases h : (seen.lookup (noteKey n)).isNone
    · simp [scanNotes, h, List.filter_cons, ih]
    · simp [scanNotes, h, List.filter_cons, ih]

theorem scanNotes_preserve (seen : List (String × SeenRec)) (portal now : String)
    (notes : List Note) (upd : List (String × SeenRec)) (k : String) (r : SeenRec)
    (h1 : seen.lookup k = some r) (h2 : upd.lookup k = some r) :
    (scanNotes seen portal now notes upd).1.lookup k = some r := by
  induction notes generalizing upd with
  | nil => exact h2
  | cons n rest ih =>
    by_cases h : (seen.lookup (noteKey n)).isNone
    · have hne : ¬ k = noteKey n := by
        intro he
        rw [← he, h1] at h
        simp at h
      simp only [scanNotes, h, if_true]
      apply ih
      rw [dictSet_lookup, if_neg hne]
      exact h2
    · simp only [scanNotes, h, if_false, Bool.false_eq_true]
      exact ih _ h2

theorem scanNotes_provenance (seen : List (String × SeenRec)) (portal now : String)
    (notes : List Note) (upd : List (String × SeenRec)) (k : String) (r : SeenRec)
    (h : (scanNotes seen portal now notes upd).1.lookup k = some r) :
    upd.lookup k = some r ∨
      (seen.lookup k = none ∧ ∃ n, n ∈ notes ∧ k = noteKey n ∧
        r = SeenRec.mk n.title n.url portal now) := by
  induction notes generalizing upd with
  | nil => exact Or.inl h
  | cons n rest ih =>
    by_cases hg : (seen.lookup (noteKey n)).isNone
    · simp only [scanNotes, hg, if_true] at h
      rcases ih _ h with h2 | ⟨hn, n2, hmem, hkey, hr⟩
      · rw [dictSet_lookup] at h2
        by_cases hkn : k = noteKey n
        · right
          constructor
          · rw [hkn]
            cases hsn : seen.lookup (noteKey n) with
            | none => rfl
            | some w => rw [hsn] at hg; simp at hg
          · refine ⟨n, List.mem_cons_self _ _, hkn, ?_⟩
            rw [if_pos hkn] at h2
            exact (Option.some_inj.mp h2).symm
        · rw [if_neg hkn] at h2
          exact Or.inl h2
      · exact Or.inr ⟨hn, n2, List.mem_cons_of_mem _ hmem, hkey, hr⟩
    · simp only [scanNotes, hg, if_false, Bool.false_eq_true] at h
      rcases ih _ h with h2 | ⟨hn, n2, hmem, hkey, hr⟩
      · exact Or.inl h2
      · exact Or.inr ⟨hn, n2, List.mem_cons_of_mem _ hmem, hkey, hr⟩

theorem runLoop_preserve (seen : List (String × SeenRec))
    (fetch : String → Option String) (parse : String → Doc) (now : String)
    (rest : List (String × String)) (upd : List (String × SeenRec))
    (acc : List (String × List Note)) (k : String) (r : SeenRec)
    (h1 : seen.lookup k = some r) (h2 : upd.lookup k = some r) :
    ((runLoop seen fetch parse now rest upd acc).savedSeen).lookup k = some r := by
  induction rest generalizing upd acc with
  | nil => exact h2
  | cons q qs ih =>
    obtain ⟨portal, url⟩ := q
    simp only [runLoop]
    exact ih _ _ (scanNotes_preserve seen portal now _ upd k r h1 h2)

theorem runLoop_provenance (seen : List (String × SeenRec))
    (fetch : String → Option String) (parse : String → Doc) (now : String)
    (rest : List (String × String)) (upd : List (String × SeenRec))
    (acc : List (String × List Note)) (k : String) (r : SeenRec)
    (h : ((runLoop seen fetch parse now rest upd acc).savedSeen).lookup k = some r) :
    upd.lookup k = some r ∨
      (seen.lookup k = none ∧ ∃ p u n, (p, u) ∈ rest ∧
        n ∈ portalNotes fetch parse u ∧ k = noteKey n ∧
        r = SeenRec.mk n.title n.url p now) := by
  induction rest generalizing upd acc with
  | nil => exact Or.inl h
  | cons q qs ih =>
    obtain ⟨portal, url⟩ := q
    simp only [runLoop] at h
    rcases ih _ _ h with h2 | ⟨hn, p, u, n, hmem, hnn, hkey, hr⟩
    · rcases scanNotes_provenance seen portal now _ upd k r h2 with
        h3 | ⟨hn, n, hmem, hkey, hr⟩
      · exact Or.inl h3
      · exact Or.inr ⟨hn, portal, url, n, List.mem_cons_self _ _, hmem, hkey, hr⟩
    · exact Or.inr ⟨hn, p, u, n, List.mem_cons_of_mem _ hmem, hnn, hkey, hr⟩

/-- C3: starting from an empty (absent-file) seen store, a portal whose page
yields exactly one notice produces exactly one reported new item and a saved
store with exactly that one entry; a second run over the identical page with
the saved store reports zero new items. -/
theorem C3_first_run_delta (p u html now now2 : String)
    (fetch : String → Option String) (parse : String → Doc) (n : Note)
    (hf : fetch u = some html) (hn : ¬ html = "")
    (hfind : find_notes (parse html) u = [n]) :
    (runMain [(p, u)] fetch parse [] now).newByPortal = [(p, [n])] ∧
    (runMain [(p, u)] fetch parse [] now).savedSeen =
      [(noteKey n, SeenRec.mk n.title n.url p now)] ∧
    (runMain [(p, u)] fetch parse
        [(noteKey n, SeenRec.mk n.title n.url p now)] now2).newByPortal = [] := by
  have hpn : portalNotes fetch parse u = [n] := by
    unfold portalNotes
    rw [hf]
    simp [hn, hfind]
  refine ⟨?_, ?_, ?_⟩
  · simp [runMain, runLoop, hpn, scanNotes, List.lookup, dictSet]
  · simp [runMain, runLoop, hpn, scanNotes, List.lookup, dictSet]
  · simp [runMain, runLoop, hpn, scanNotes, List.lookup]

/-- Portal URL of the C3 witness page. -/
def U3 : String := "https://portal.test/docs/"

/-- Fetcher of the C3 witness: every fetch succeeds with a fixed page. -/
def F3 : String → Option String := fun _ => some "pagina"

/-- Parser of the C3 witness: one matching link inside a dated table row. -/
def P3 : String → Doc := fun _ => Doc.mk
  [Anchor.mk "Nota Técnica 2024.001" (some "doc1.pdf")
    (some "Nota Técnica 2024.001 Publicada em 29/09/2024")] ""

/-- The single note the C3 witness page yields. -/
def N3 : Note := Note.mk "Nota Técnica 2024.001" "https://portal.test/docs/doc1.pdf"

theorem C3_witness :
    (runMain [("Portal Teste", U3)] F3 P3 [] "t1").newByPortal =
      [("Portal Teste", [N3])] ∧
    (runMain [("Portal Teste", U3)] F3 P3 [] "t1").savedSeen =
      [(noteKey N3, SeenRec.mk N3.title N3.url "Portal Teste" "t1")] ∧
    (runMain [("Portal Teste", U3)] F3 P3
        [(noteKey N3, SeenRec.mk N3.title N3.url "Portal Teste" "t1")]
        "t2").newByPortal = [] :=
  C3_first_run_delta "Portal Teste" U3 "pagina" "t1" "t2" F3 P3 N3 rfl
    (by decide) (by decide)

/-- C7: main's cross-run novelty test keys every candidate returned by
find_notes — from either extractor — with sha256_text of "title||url", the
scheme the merge engine uses for structural candidates (and not the
aggressive pass's 150-character-prefix key): the reported new items of a
portal are exactly its notes whose such key is absent from the run-start
store, and the per-note key coincides with structuralHashKey on the note's
title and final resolved url. -/
theorem C7_seen_key_scheme (fetch : String → Option String) (parse : String → Doc)
    (seen : List (String × SeenRec)) (now p u : String) :
    ((runMain [(p, u)] fetch parse seen now).newByPortal =
      (if ((portalNotes fetch parse u).filter (fun n =>
            (seen.lookup (sha256_text (n.title ++ "||" ++ n.url))).isNone)).isEmpty
        then []
        else [(p, (portalNotes fetch parse u).filter (fun n =>
          (seen.lookup (sha256_text (n.title ++ "||" ++ n.url))).isNone))])) ∧
    (∀ n : Note, noteKey n = structuralHashKey n.title n.url) := by
  constructor
  · show (runLoop seen fetch parse now [(p, u)] seen []).newByPortal = _
    simp only [runLoop, scanNotes_items, noteKey, List.nil_append]
  · intro n
    rfl

/-- C8 (amended): records present in the loaded store are carried into the
saved store unchanged and never deleted, and every record in the saved store
is either a loaded record or was created during the run, with title, url,
portal and timestamp taken from one of the run's observations of that key.
The "never mutated after creation" part of the claim fails: novelty is
checked against the run-start store, so a key observed at several portals in
one run is re-written at each and the last observation wins (see the
counterexample). -/
theorem C8_seen_store_amended (portals : List (String × String))
    (fetch : String → Option String) (parse : String → Doc)
    (seen : List (String × SeenRec)) (now : String) :
    (∀ (k : String) (r : SeenRec), seen.lookup k = some r →
      ((runMain portals fetch parse seen now).savedSeen).lookup k = some r) ∧
    (∀ (k : String) (r : SeenRec),
      ((runMain portals fetch parse seen now).savedSeen).lookup k = some r →
      seen.lookup k = some r ∨
        (seen.lookup k = none ∧ ∃ pn un n, (pn, un) ∈ portals ∧
          n ∈ portalNotes fetch parse un ∧ k = noteKey n ∧
          r = SeenRec.mk n.title n.url pn now)) := by
  constructor
  · intro k r h
    exact runLoop_preserve seen fetch parse now portals seen [] k r h h
  · intro k r h
    rcases runLoop_provenance seen fetch parse now portals seen [] k r h with
      h2 | h2
    · exact Or.inl h2
    · exact Or.inr h2

/-- Fetcher of the C8 theorems: always fails. -/
def W8f : String → Option String := fun _ => none

/-- Parser of the C8 theorems: empty page. -/
def W8p : String → Doc := fun _ => Doc.mk [] ""

/-- A pre-existing seen record for the C8 witness. -/
def R8 : SeenRec := SeenRec.mk "t" "u" "p" "2024-01-01T00:00:00"

theorem C8_witness :
    ((runMain [] W8f W8p [("k0", R8)] "t0").savedSeen).lookup "k0" = some R8 :=
  (C8_seen_store_amended [] W8f W8p [("k0", R8)] "t0").1 "k0" R8 (by decide)

/-- Page shared by both portals of the C8 counterexample: the link target is
an absolute URL, so both portals yield the identical note. -/
def D8 : Doc := Doc.mk
  [Anchor.mk "Nota Técnica 99" (some "https://shared.test/nt.pdf") none] ""

/-- Fetcher of the C8 counterexample: both portals fetch successfully. -/
def F8 : String → Option String := fun _ => some "x"

/-- Parser of the C8 counterexample. -/
def P8 : String → Doc := fun _ => D8

/-- The note both portals of the C8 counterexample produce. -/
def N8 : Note := Note.mk "Nota Técnica 99" "https://shared.test/nt.pdf"

/-- C8 is false as stated: with an empty loaded store and two portals whose
pages yield the same note (same title and URL, hence the same key), the key
is first observed — and its record created with portal "Portal A" — while
processing the first portal, as witnessed by the note being reported new
there; yet the record saved at run end carries portal "Portal B".  The
record was therefore mutated after creation (and the item double-reported),
because the novelty check consults the run-start store, not the updated
one. -/
theorem C8_counterexample :
    (runMain [("Portal A", "https://a.test/"), ("Portal B", "https://b.test/")]
        F8 P8 [] "t0").newByPortal =
      [("Portal A", [N8]), ("Portal B", [N8])] ∧
    (runMain [("Portal A", "https://a.test/"), ("Portal B", "https://b.test/")]
        F8 P8 [] "t0").savedSeen =
      [(noteKey N8, SeenRec.mk "Nota Técnica 99" "https://shared.test/nt.pdf"
        "Portal B" "t0")] :=
  ⟨by decide, by decide⟩

theorem runLoop_skip_failed (seen : List (String × SeenRec))
    (fetch : String → Option String) (parse : String → Doc) (now : String)
    (rest : List (String × String)) (upd : List (String × SeenRec))
    (acc : List (String × List Note)) :
    runLoop seen fetch parse now rest upd acc =
      runLoop seen fetch parse now
        (rest.filter (fun q => (fetch q.2).isSome)) upd acc := by
  induction rest generalizing upd acc with
  | nil => rfl
  | cons q qs ih =>
    obtain ⟨portal, url⟩ := q
    cases hc : (fetch url).isSome with
    | true =>
      have hcc : (fun q : String × String => (fetch q.2).isSome) (portal, url) = true := hc
      simp only [List.filter_cons, hcc, if_true, runLoop]
      exact ih _ _
    | false =>
      have hnotes : portalNotes fetch parse url = [] := by
        unfold portalNotes
        cases hf : fetch url with
        | none => rfl
        | some a => rw [hf] at hc; simp at hc
      have hcc : (fun q : String × String => (fetch q.2).isSome) (portal, url) = false := hc
      simp only [List.filter_cons, hcc, if_false, Bool.false_eq_true, runLoop,
        hnotes, scanNotes, List.isEmpty_nil, if_true]
      exact ih _ _

/-- C9: a portal whose fetch fails (the fetch collaborator signals no value,
as fetch_url does after catching any request exception) contributes nothing:
the whole run is equal to the run over the registry with the failed portals
removed — the remaining portals are processed in registry order with the
same state, and the final seen-state save still happens. -/
theorem C9_fetch_failure_isolation (portals : List (String × String))
    (fetch : String → Option String) (parse : String → Doc)
    (seen : List (String × SeenRec)) (now : String) :
    runMain portals fetch parse seen now =
      runMain (portals.filter (fun q => (fetch q.2).isSome)) fetch parse seen now :=
  runLoop_skip_failed seen fetch parse now portals seen []

theorem runLoop_fetch_congr (seen : List (String × SeenRec))
    (f1 f2 : String → Option String) (parse : String → Doc) (now : String)
    (hpf : ∀ u, portalNotes f1 parse u = portalNotes f2 parse u)
    (rest : List (String × String)) (upd : List (String × SeenRec))
    (acc : List (String × List Note)) :
    runLoop seen f1 parse now rest upd acc =
      runLoop seen f2 parse now rest upd acc := by
  induction rest generalizing upd acc with
  | nil => rfl
  | cons q qs ih =>
    obtain ⟨portal, url⟩ := q
    simp only [runLoop, hpf url]
    exact ih _ _

/-- C10: a portal whose fetch succeeds with empty page text behaves exactly
like a fetch failure: mapping every empty-string fetch result to a failure
leaves the entire run result — new items and saved store alike — unchanged,
so no extraction runs for that portal, it reports nothing, records nothing,
and the rest of the run proceeds normally. -/
theorem C10_empty_page_like_failure (portals : List (String × String))
    (fetch : String → Option String) (parse : String → Doc)
    (seen : List (String × SeenRec)) (now : String) :
    runMain portals
        (fun v => match fetch v with
          | none => none
          | some ht => if ht = "" then none else some ht) parse seen now =
      runMain portals fetch parse seen now := by
  apply runLoop_fetch_congr
  intro u
  unfold portalNotes
  cases hf : fetch u with
  | none => simp only [hf]
  | some ht =>
    simp only [hf]
    by_cases he : ht = ""
    · subst he
      simp
    · simp [he]
